import Mathlib

/-!
Verification of the boomersig orchestration layer (`bs_signing.rs`,
`bs_keygen.rs`, `bs_ui.rs`) against its specification.

The Rust code is shallowly embedded: each orchestrator becomes a pure Lean
function over an explicit `Env` of external collaborators (the relay
`join_computation`, the gg20 protocol engine, secp256k1 and rust-bitcoin
primitives), an explicit file-system map, and the configuration structs of
the source.  Every run returns both an outcome and a `SignTrace` recording
the externally visible events (rooms joined, messages broadcast, the digest
that was signed, aggregation and recovery calls), so that the theorems can
speak about what the orchestrator did and not only about its return value.

Byte-level primitives that the claims depend on (SHA-256, hex
encoding/decoding, bitcoin script data pushes, big-endian integer
conversions) are implemented concretely.
-/

set_option maxRecDepth 10000

namespace Boomersig

/-! ## Bytes, hex, and integer conversions -/

/-- UTF-8 bytes of an ASCII string (all payload literals in the source are
ASCII, where UTF-8 agrees with the code points). -/
def asciiBytes (s : String) : List Nat :=
  s.data.map (fun c => c.toNat)

/-- Lowercase hex digit, as produced by `hex::encode`. -/
def hexDigit (n : Nat) : Char :=
  "0123456789abcdef".data.getD n '?'

/-- `hex::encode` on a byte list, as a character list. -/
def hexEncodeChars (bs : List Nat) : List Char :=
  bs.flatMap (fun b => [hexDigit (b / 16), hexDigit (b % 16)])

/-- `hex::encode`: lowercase hex string of a byte list. -/
def hexEncode (bs : List Nat) : String :=
  ⟨hexEncodeChars bs⟩

/-- Value of one hex digit character (`hex::decode` accepts both cases). -/
def hexDigitVal (c : Char) : Option Nat :=
  match "0123456789abcdef".data.indexOf? c with
  | some i => some i
  | none =>
    match "ABCDEF".data.indexOf? c with
    | some i => some (10 + i)
    | none => none

/-- `hex::decode` on a character list: pairs of hex digits to bytes. -/
def hexDecodeChars : List Char → Option (List Nat)
  | [] => some []
  | [_] => none
  | c1 :: c2 :: rest =>
    match hexDigitVal c1, hexDigitVal c2, hexDecodeChars rest with
    | some a, some b, some t => some ((a * 16 + b) :: t)
    | _, _, _ => none

/-- `hex::decode` on a string. -/
def hexDecode (s : String) : Option (List Nat) :=
  hexDecodeChars s.data

/-- Little-endian base-256 digits of `n` (auxiliary, fueled). -/
def natBytesLEAux : Nat → Nat → List Nat
  | 0, _ => []
  | _, 0 => []
  | fuel + 1, n => n % 256 :: natBytesLEAux fuel (n / 256)

/-- Minimal big-endian byte representation of a natural number, as produced
by `curv::BigInt::to_bytes` (zero is one zero byte). -/
def natToBytesBE (n : Nat) : List Nat :=
  if n = 0 then [0] else (natBytesLEAux n n).reverse

/-- Big-endian bytes to a natural number, as `curv::BigInt::from_bytes`. -/
def bytesToNatBE (bs : List Nat) : Nat :=
  bs.foldl (fun acc b => acc * 256 + b) 0

/-! ## SHA-256 (FIPS 180-4), as computed by the `sha2` crate -/

/-- 32-bit right rotation. -/
def rotr32 (n x : Nat) : Nat :=
  ((x >>> n) ||| (x <<< (32 - n))) % 4294967296

/-- SHA-256 round constants. -/
def sha256K : List Nat :=
  [1116352408, 1899447441, 3049323471, 3921009573, 961987163,
   1508970993, 2453635748, 2870763221, 3624381080, 310598401,
   607225278, 1426881987, 1925078388, 2162078206, 2614888103,
   3248222580, 3835390401, 4022224774, 264347078, 604807628,
   770255983, 1249150122, 1555081692, 1996064986, 2554220882,
   2821834349, 2952996808, 3210313671, 3336571891, 3584528711,
   113926993, 338241895, 666307205, 773529912, 1294757372,
   1396182291, 1695183700, 1986661051, 2177026350, 2456956037,
   2730485921, 2820302411, 3259730800, 3345764771, 3516065817,
   3600352804, 4094571909, 275423344, 430227734, 506948616,
   659060556, 883997877, 958139571, 1322822218, 1537002063,
   1747873779, 1955562222, 2024104815, 2227730452, 2361852424,
   2428436474, 2756734187, 3204031479, 3329325298]

/-- SHA-256 initial hash state. -/
def sha256H0 : List Nat :=
  [1779033703, 3144134277, 1013904242, 2773480762, 1359893119,
   2600822924, 528734635, 1541459225]

/-- Merkle–Damgård padding: append `0x80`, zero bytes up to 56 mod 64, then
the 8-byte big-endian bit length. -/
def sha256Pad (msg : List Nat) : List Nat :=
  let bitLen := msg.length * 8
  let zeros := (119 - msg.length % 64) % 64
  msg ++ 0x80 :: List.replicate zeros 0 ++
    [bitLen >>> 56 % 256, bitLen >>> 48 % 256, bitLen >>> 40 % 256,
     bitLen >>> 32 % 256, bitLen >>> 24 % 256, bitLen >>> 16 % 256,
     bitLen >>> 8 % 256, bitLen % 256]

/-- Split into 64-byte blocks (fueled; the fuel is the list length). -/
def chunks64Aux : Nat → List Nat → List (List Nat)
  | _, [] => []
  | 0, _ => []
  | fuel + 1, l => l.take 64 :: chunks64Aux fuel (l.drop 64)

/-- Split a byte list into 64-byte blocks. -/
def chunks64 (l : List Nat) : List (List Nat) :=
  chunks64Aux l.length l

/-- Big-endian 32-bit words of a block (fueled on the byte list). -/
def wordsBE : List Nat → List Nat
  | b0 :: b1 :: b2 :: b3 :: rest =>
    (b0 <<< 24 ||| b1 <<< 16 ||| b2 <<< 8 ||| b3) :: wordsBE rest
  | _ => []

/-- Extend the 16 message words of a block to the 64-entry schedule. -/
def sha256SchedAux : Nat → List Nat → List Nat
  | 0, w => w
  | fuel + 1, w =>
    let i := w.length
    let w15 := w.getD (i - 15) 0
    let w2 := w.getD (i - 2) 0
    let s0 := (rotr32 7 w15) ^^^ (rotr32 18 w15) ^^^ (w15 >>> 3)
    let s1 := (rotr32 17 w2) ^^^ (rotr32 19 w2) ^^^ (w2 >>> 10)
    let next := (w.getD (i - 16) 0 + s0 + w.getD (i - 7) 0 + s1) % 4294967296
    sha256SchedAux fuel (w ++ [next])

/-- One compression round on the working state `[a,b,c,d,e,f,g,h]`. -/
def sha256Round (st : List Nat) (k w : Nat) : List Nat :=
  let a := st.getD 0 0
  let b := st.getD 1 0
  let c := st.getD 2 0
  let d := st.getD 3 0
  let e := st.getD 4 0
  let f := st.getD 5 0
  let g := st.getD 6 0
  let h := st.getD 7 0
  let s1 := (rotr32 6 e) ^^^ (rotr32 11 e) ^^^ (rotr32 25 e)
  let ch := (e &&& f) ^^^ ((e ^^^ 0xffffffff) &&& g)
  let t1 := (h + s1 + ch + k + w) % 4294967296
  let s0 := (rotr32 2 a) ^^^ (rotr32 13 a) ^^^ (rotr32 22 a)
  let maj := (a &&& b) ^^^ (a &&& c) ^^^ (b &&& c)
  let t2 := (s0 + maj) % 4294967296
  [(t1 + t2) % 4294967296, a, b, c, (d + t1) % 4294967296, e, f, g]

/-- Compress one 64-byte block into the running hash state. -/
def sha256Compress (hs : List Nat) (block : List Nat) : List Nat :=
  let ws := sha256SchedAux 48 (wordsBE block)
  let fin := (List.range 64).foldl
    (fun st i => sha256Round st (sha256K.getD i 0) (ws.getD i 0)) hs
  (List.range 8).map (fun i => (hs.getD i 0 + fin.getD i 0) % 4294967296)

/-- SHA-256 digest of a byte list, 32 bytes. -/
def sha256 (msg : List Nat) : List Nat :=
  let hs := (chunks64 (sha256Pad msg)).foldl sha256Compress sha256H0
  hs.flatMap (fun w => [w >>> 24 % 256, w >>> 16 % 256, w >>> 8 % 256, w % 256])

example :
    sha256 [] =
    [227, 176, 196, 66, 152, 252, 28, 20,
     154, 251, 244, 200, 153, 111, 185, 36,
     39, 174, 65, 228, 100, 155, 147, 76,
     164, 149, 153, 27, 120, 82, 184, 85] := by decide

example :
    sha256 (asciiBytes "abc") =
    [186, 120, 22, 191, 143, 1, 207, 234,
     65, 65, 64, 222, 93, 174, 34, 35,
     176, 3, 97, 163, 150, 23, 122, 156,
     180, 16, 255, 97, 242, 0, 21, 173] := by decide

/-! ## Bitcoin-boundary data model

The rust-bitcoin / secp256k1 primitives are used, not reimplemented
(spec §1): values that the orchestrator only passes through are opaque
`Nat` tokens, and the operations on them are fields of the `Env` below.
Structure that the claims inspect (script pushes, the PSBT input list, the
address payload) is modelled concretely. -/

/-- A PSBT input: only its `final_script_sig` field is touched here. -/
structure PsbtInput where
  finalScriptSig : Option (List Nat) := none
  deriving DecidableEq, Repr

/-- A parsed `PartiallySignedTransaction`: the per-input list and an opaque
token for everything else (the unsigned transaction body). -/
structure Psbt where
  inputs : List PsbtInput
  txBody : Nat
  deriving DecidableEq, Repr

/-- An extracted `Transaction`: the per-input `script_sig`s and the opaque
remainder carried over from the PSBT. -/
structure Tx where
  inputScriptSigs : List (List Nat)
  body : Nat
  deriving DecidableEq, Repr

/-- `Psbt::extract_tx`: each input's script becomes its
`final_script_sig`, or empty when absent. -/
def Psbt.extractTx (p : Psbt) : Tx :=
  { inputScriptSigs := p.inputs.map (fun i => i.finalScriptSig.getD []),
    body := p.txBody }

/-- `bitcoin::Network` (the variants relevant at this boundary). -/
inductive Network
  | bitcoin
  | testnet
  | signet
  | regtest
  deriving DecidableEq, Repr

/-- A network other than mainnet is a test network. -/
def Network.isTestNetwork : Network → Bool
  | .bitcoin => false
  | _ => true

/-- `bitcoin::address::Payload` (the variants relevant here): a legacy
pay-to-pubkey-hash address carries the HASH160 of the public key. -/
inductive AddrPayload
  | pubkeyHash (h : List Nat)
  | scriptHash (h : List Nat)
  deriving DecidableEq, Repr

/-- A `bitcoin::Address`: network plus payload. -/
structure Address where
  network : Network
  payload : AddrPayload
  deriving DecidableEq, Repr

/-- `bitcoin::PublicKey::from_slice`: accepts a 65-byte uncompressed key
(tag 4) or a 33-byte compressed key (tag 2 or 3), and keeps the bytes. -/
def pubKeyFromSlice (bs : List Nat) : Option (List Nat) :=
  match bs.head? with
  | some 4 => if bs.length = 65 then some bs else none
  | some 2 => if bs.length = 33 then some bs else none
  | some 3 => if bs.length = 33 then some bs else none
  | _ => none

/-- `secp256k1::RecoveryId::from_i32`: valid for 0..=3. -/
def recoveryIdFromI32 (n : Nat) : Option Nat :=
  if n ≤ 3 then some n else none

/-- Bitcoin script data push (`ScriptBuf::push_slice`): a direct
`OP_PUSHBYTES_n` for short data, `OP_PUSHDATA1/2/4` beyond. -/
def pushSliceEnc (d : List Nat) : List Nat :=
  if d.length < 76 then d.length :: d
  else if d.length < 256 then 76 :: d.length :: d
  else if d.length < 65536 then 77 :: d.length % 256 :: d.length / 256 :: d
  else 78 :: d.length % 256 :: d.length / 256 % 256 ::
       d.length / 65536 % 256 :: d.length / 16777216 % 256 :: d

/-- Decode a script consisting only of direct data pushes
(`OP_PUSHBYTES_1` .. `OP_PUSHBYTES_75`) into the pushed byte lists
(fueled on the script length). -/
def decodePushesAux : Nat → List Nat → Option (List (List Nat))
  | _, [] => some []
  | 0, _ => none
  | fuel + 1, op :: rest =>
    if op = 0 ∨ 76 ≤ op then none
    else if rest.length < op then none
    else (decodePushesAux fuel (rest.drop op)).map (rest.take op :: ·)

/-- Decode a script of direct data pushes into the pushed byte lists. -/
def decodePushes (s : List Nat) : Option (List (List Nat)) :=
  decodePushesAux s.length s

/-- The aggregated signature the gg20 engine's `complete` returns:
`r`, `s`, and the engine-supplied recovery id. -/
structure AggSig where
  r : Nat
  s : Nat
  recid : Nat
  deriving DecidableEq, Repr

/-- `usize` subtraction: `none` models the underflow (a panic in a checked
build, a wrap-around in release — either way outside the intended domain). -/
def usizeSub (a b : Nat) : Option Nat :=
  if b ≤ a then some (a - b) else none

/-! ## Configuration and result structs (verbatim from the source) -/

/-- `SigningConfig` of `bs_signing.rs` (`data_to_sign` is carried as the
UTF-8 bytes of the Rust `String`). -/
structure SigningConfig where
  address : String
  room : String
  local_share : String
  parties : List Nat
  data_to_sign : List Nat
  transaction : Bool
  idx : Nat
  deriving DecidableEq, Repr

/-- `SigningResult` of `bs_signing.rs` (field names kept, including the
source's `signined_tx`). -/
structure SigningResult where
  pubkey : String
  address : String
  out_dir : String
  signined_tx : Option String
  deriving DecidableEq, Repr

/-- `KeygenConfig` of `bs_keygen.rs`. -/
structure KeygenConfig where
  address : String
  room : String
  output : String
  index : Nat
  threshold : Nat
  number_of_parties : Nat
  deriving DecidableEq, Repr

/-- `KeygenResult` of `bs_keygen.rs`. -/
structure KeygenResult where
  pubkey : String
  address : String
  out_dir : String
  deriving DecidableEq, Repr

/-- Error kinds of the orchestration layer (spec §7).  The payload string is
the `anyhow` context message of the corresponding source site. -/
inductive BsError
  | configError (msg : String)
  | ioError (msg : String)
  | joinError (msg : String)
  | protocolError (msg : String)
  | digestError (msg : String)
  | signError (msg : String)
  | aggregationError (msg : String)
  | recoveryError (msg : String)
  | encodeError (msg : String)
  deriving DecidableEq, Repr

/-- Outcome of one `do_sign` run.  `pending` models an await that never
resolves (the online room stays open but delivers too few messages);
`panicked` models a Rust panic (arithmetic underflow, out-of-bounds index). -/
inductive SignOutcome
  | ok (r : SigningResult)
  | err (e : BsError)
  | pending
  | panicked (msg : String)
  deriving DecidableEq, Repr

/-- A message pushed into the outgoing sink
(`round_based::Msg` with an opaque body token). -/
structure OutMsg where
  sender : Nat
  receiver : Option Nat
  body : Nat
  deriving DecidableEq, Repr

/-- Externally visible events of a `do_sign` run. -/
structure SignTrace where
  joinedRooms : List String := []
  digest : Option (List Nat) := none
  sent : List OutMsg := []
  completeCalls : List (List Nat) := []
  aggResult : Option AggSig := none
  recoverCalls : List (List Nat × List Nat × Nat) := []
  deriving DecidableEq, Repr

/-- The external collaborators of both orchestrators, as pure functions:
the relay (`join_computation`), the gg20 engine state machines, and the
bitcoin / secp256k1 primitives the source calls.  Opaque values (local
shares, engine stages, handles, public keys) are `Nat` tokens. -/
structure Env where
  /-- `join_computation(address, room)`: the assigned party index. -/
  join : String → String → Except String Nat
  /-- `serde_json::from_slice` on the share file bytes. -/
  parseLocalShare : List Nat → Except String Nat
  /-- `OfflineStage::new(idx, parties, local_share)`. -/
  offlineStageNew : Nat → List Nat → Nat → Except String Nat
  /-- `AsyncProtocol::new(offline, ..).run()`. -/
  runOffline : Nat → Except String Nat
  /-- `PartiallySignedTransaction::from_str` on the payload bytes. -/
  psbtFromStr : List Nat → Except String Psbt
  /-- `Psbt::sighash_ecdsa(0, cache)`: the 32-byte input-0 sighash. -/
  sighashEcdsa0 : Psbt → Except String (List Nat)
  /-- `SignManual::new(digest, completed_offline)`:
  the handle and the local share of the signature. -/
  signManualNew : Nat → Nat → Except String (Nat × Nat)
  /-- Result of awaiting `outgoing.send`. -/
  sendResult : Except String Unit
  /-- Whether the online room's incoming stream terminates after
  delivering `onlineMsgs` (rather than staying open). -/
  onlineClosed : Bool
  /-- The message bodies the online incoming stream will yield, in order. -/
  onlineMsgs : List (Except String Nat)
  /-- `SignManual::complete(handle, others)`. -/
  complete : Nat → List Nat → Except String AggSig
  /-- `secp.recover(msg32, recoverable_sig(compact64, recid))`. -/
  recover : List Nat → List Nat → Nat → Except String Nat
  /-- `PublicKey::serialize_vec(secp, compressed)`. -/
  serializePubkey : Nat → Bool → List Nat
  /-- `Signature::serialize_der` of the standard signature with the given
  64-byte compact `r ‖ s`. -/
  serializeDer : List Nat → List Nat
  /-- `HASH160` (SHA-256 then RIPEMD-160) of public key bytes. -/
  hash160 : List Nat → List Nat
  /-- `Address::to_string` (base58check rendering). -/
  addressToString : Address → String
  /-- `bitcoin::consensus::encode::serialize_hex` of a transaction. -/
  serializeHex : Tx → String
  /-- `Keygen::new(index, threshold, number_of_parties)`. -/
  keygenNew : Nat → Nat → Nat → Except String Nat
  /-- `AsyncProtocol::new(keygen, ..).run()`. -/
  runKeygen : Nat → Except String Nat
  /-- `serde_json::to_vec_pretty` of the keygen output. -/
  serializeShare : Nat → List Nat

/-- The file system: path to contents. -/
def FS := String → Option (List Nat)

/-- Write (or overwrite) one file. -/
def FS.write (fs : FS) (path : String) (contents : List Nat) : FS :=
  fun p => if p = path then some contents else fs p

/-- `incoming.take(k).map_ok(..).try_collect()` against a stream that will
yield `msgs` and then either terminate (`closed = true`) or stay open:
`none` means the await never resolves; an error item short-circuits;
a terminated stream yields the (possibly shorter) prefix collected so far. -/
def awaitPartials (closed : Bool) : List (Except String Nat) → Nat →
    Option (Except String (List Nat))
  | _, 0 => some (.ok [])
  | [], _ + 1 => if closed then some (.ok []) else none
  | m :: rest, k + 1 =>
    match m with
    | .error e => some (.error e)
    | .ok a => (awaitPartials closed rest k).map (fun r => r.map (a :: ·))

/-! ## `do_sign` (`bs_signing.rs`, lines 53–176) -/

/-- Digest selection (`bs_signing.rs` lines 84–96): in transaction mode,
parse the payload as a PSBT and take the input-0 ECDSA sighash (the source
round-trips it through `to_string()` / `hex::decode`, embedded literally);
otherwise the SHA-256 of the raw payload bytes. -/
def computeDigest (env : Env) (args : SigningConfig) : Except BsError (List Nat) :=
  if args.transaction then
    match env.psbtFromStr args.data_to_sign with
    | .error e => .error (.digestError e)
    | .ok tx =>
      match env.sighashEcdsa0 tx with
      | .error e => .error (.digestError e)
      | .ok h =>
        match hexDecode (hexEncode h) with
        | none => .error (.digestError "cannot decode sighash")
        | some d => .ok d
  else
    .ok (sha256 args.data_to_sign)

/-- The final `script_sig` (`bs_signing.rs` lines 141–150): a push of the
DER signature with the appended sighash byte `1`, then a push of the
public key bytes. -/
def buildScriptSig (env : Env) (compact pkBytes : List Nat) : List Nat :=
  pushSliceEnc (env.serializeDer compact ++ [1]) ++ pushSliceEnc pkBytes

/-- Address derivation (`bs_signing.rs` lines 156–157 and 167–168):
`bitcoin::PublicKey::from_slice(&hex::decode(&public_key_hex)?)`, then
`Address::p2pkh(&public_key, Network::Signet).to_string()`. -/
def deriveAddressString (env : Env) (public_key_hex : String) :
    Except BsError String :=
  match hexDecode public_key_hex with
  | none => .error (.encodeError "hex decode")
  | some pkDecoded =>
    match pubKeyFromSlice pkDecoded with
    | none => .error (.encodeError "invalid public key")
    | some bpk =>
      .ok (env.addressToString ⟨.signet, .pubkeyHash (env.hash160 bpk)⟩)

/-- The signing orchestrator, step for step after the source: read and parse
the local share, join `"{room}-offline"`, drive the offline stage, join
`"{room}-online"`, compute the digest (input-0 sighash of the parsed PSBT
when `transaction`, SHA-256 of the raw payload bytes otherwise), broadcast
the local share of the signature, await `parties.len() - 1` messages,
complete, rebuild the recoverable signature from `(r, s, recid)`, recover
the public key, and either finalize the transaction or derive the address
only.  The `hex::decode(sighash.to_string())` round trip of line 89 and the
`hex::decode(&public_key_hex)` of lines 156/167 are embedded literally. -/
def do_sign (env : Env) (fs : FS) (args : SigningConfig) : SignOutcome × SignTrace :=
  let tr0 : SignTrace := {}
  match fs args.local_share with
  | none => (.err (.ioError "cannot read local share"), tr0)
  | some shareBytes =>
    match env.parseLocalShare shareBytes with
    | .error _ => (.err (.ioError "parse local share"), tr0)
    | .ok local_share =>
      let number_of_parties := args.parties.length
      let offlineRoom := args.room ++ "-offline"
      let tr1 := { tr0 with joinedRooms := [offlineRoom] }
      match env.join args.address offlineRoom with
      | .error _ => (.err (.joinError "join offline computation"), tr1)
      | .ok i =>
        match env.offlineStageNew args.idx args.parties local_share with
        | .error _ =>
          (.err (.protocolError ("error creatign offline stage " ++ toString i)), tr1)
        | .ok signing0 =>
          match env.runOffline signing0 with
          | .error e =>
            (.err (.protocolError ("protocol execution terminated with error: " ++ e)), tr1)
          | .ok completed_offline_stage =>
            let onlineRoom := args.room ++ "-online"
            let tr2 := { tr1 with joinedRooms := [offlineRoom, onlineRoom] }
            match env.join args.address onlineRoom with
            | .error _ => (.err (.joinError "join online computation"), tr2)
            | .ok _i =>
              match computeDigest env args with
              | .error e => (.err e, tr2)
              | .ok data =>
                let tr3 := { tr2 with digest := some data }
                match env.signManualNew (bytesToNatBE data) completed_offline_stage with
                | .error e => (.err (.signError e), tr3)
                | .ok (signing, local_part) =>
                  let tr4 := { tr3 with sent := [⟨i, none, local_part⟩] }
                  match env.sendResult with
                  | .error e => (.err (.protocolError e), tr4)
                  | .ok _ =>
                    match usizeSub number_of_parties 1 with
                    | none => (.panicked "attempt to subtract with overflow", tr4)
                    | some k =>
                      match awaitPartials env.onlineClosed env.onlineMsgs k with
                      | none => (.pending, tr4)
                      | some (.error e) => (.err (.protocolError e), tr4)
                      | some (.ok others) =>
                        let tr5 := { tr4 with completeCalls := [others] }
                        match env.complete signing others with
                        | .error _ => (.err (.aggregationError "online stage failed"), tr5)
                        | .ok signature =>
                          let tr6 := { tr5 with aggResult := some signature }
                          let compact :=
                            natToBytesBE signature.r ++ natToBytesBE signature.s
                          match recoveryIdFromI32 signature.recid with
                          | none => (.err (.recoveryError "invalid recovery id"), tr6)
                          | some recid =>
                            if compact.length ≠ 64 then
                              (.err (.recoveryError "signature from compact"), tr6)
                            else if data.length ≠ 32 then
                              (.err (.recoveryError "message from slice"), tr6)
                            else
                              let tr7 :=
                                { tr6 with recoverCalls := [(data, compact, recid)] }
                              match env.recover data compact recid with
                              | .error e => (.err (.recoveryError e), tr7)
                              | .ok public_key =>
                                let pkBytes := env.serializePubkey public_key false
                                let public_key_hex := hexEncode pkBytes
                                if args.transaction then
                                  let script_sig := buildScriptSig env compact pkBytes
                                  match env.psbtFromStr args.data_to_sign with
                                  | .error e => (.err (.digestError e), tr7)
                                  | .ok tx2 =>
                                    match tx2.inputs with
                                    | [] => (.panicked "index out of bounds", tr7)
                                    | inp0 :: restInputs =>
                                      let tx3 : Psbt :=
                                        { tx2 with inputs :=
                                            { inp0 with finalScriptSig := some script_sig } ::
                                              restInputs }
                                      let txf := tx3.extractTx
                                      match deriveAddressString env public_key_hex with
                                      | .error e => (.err e, tr7)
                                      | .ok address =>
                                        (.ok { pubkey := public_key_hex,
                                               address := address,
                                               out_dir := args.local_share,
                                               signined_tx :=
                                                 some (env.serializeHex txf) }, tr7)
                                else
                                  match deriveAddressString env public_key_hex with
                                  | .error e => (.err e, tr7)
                                  | .ok address =>
                                    (.ok { pubkey := public_key_hex,
                                           address := address,
                                           out_dir := args.local_share,
                                           signined_tx := none }, tr7)

/-! ## `do_keygen` (`bs_keygen.rs`, lines 30–73) -/

/-- Outcome of one `do_keygen` run (same terminal cases as `SignOutcome`). -/
inductive KeygenOutcome
  | ok (r : KeygenResult)
  | err (e : BsError)
  | pending
  | panicked (msg : String)
  deriving DecidableEq, Repr

/-- Externally visible events of a `do_keygen` run (rooms joined by the run,
including those of the chained demo signing, and the demo `SigningConfig`
when the run reaches it). -/
structure KTrace where
  joinedRooms : List String := []
  demoConfig : Option SigningConfig := none
  deriving DecidableEq, Repr

/-- The hard-coded `SigningConfig` literal of `bs_keygen.rs` lines 57–64.
The source literal omits the required `idx` field (it does not type-check
against `SigningConfig`); it is modelled here with `idx := 0`. -/
def demoSigningConfig (output : String) : SigningConfig :=
  { room := "room",
    address := "http://127.0.0.1:8000",
    parties := [1, 2],
    local_share := output,
    data_to_sign := asciiBytes "boomersig go brrrr",
    transaction := false,
    idx := 0 }

/-- The keygen orchestrator, step for step after the source: create the
output file exclusively (`OpenOptions::create_new(true)` — the file comes
into existence, empty, at this point), join the ceremony room, drive the
keygen engine, persist the serialized share, then unconditionally run the
hard-coded demo signing ceremony and propagate its result. -/
def do_keygen (env : Env) (fs : FS) (config : KeygenConfig) :
    KeygenOutcome × FS × KTrace :=
  match fs config.output with
  | some _ => (.err (.configError "cannot create output file"), fs, {})
  | none =>
    let fs1 := fs.write config.output []
    let tr1 : KTrace := { joinedRooms := [config.room] }
    match env.join config.address config.room with
    | .error _ => (.err (.joinError "join computation"), fs1, tr1)
    | .ok _i =>
      match env.keygenNew config.index config.threshold config.number_of_parties with
      | .error e => (.err (.protocolError e), fs1, tr1)
      | .ok keygen =>
        match env.runKeygen keygen with
        | .error e =>
          (.err (.protocolError ("protocol execution terminated with error: " ++ e)),
           fs1, tr1)
        | .ok output =>
          let fs2 := fs1.write config.output (env.serializeShare output)
          let args := demoSigningConfig config.output
          match do_sign env fs2 args with
          | (.ok res, str) =>
            (.ok { pubkey := res.pubkey, address := res.address,
                   out_dir := res.out_dir }, fs2,
             { joinedRooms := tr1.joinedRooms ++ str.joinedRooms,
               demoConfig := some args })
          | (.err e, str) =>
            (.err e, fs2,
             { joinedRooms := tr1.joinedRooms ++ str.joinedRooms,
               demoConfig := some args })
          | (.pending, str) =>
            (.pending, fs2,
             { joinedRooms := tr1.joinedRooms ++ str.joinedRooms,
               demoConfig := some args })
          | (.panicked m, str) =>
            (.panicked m, fs2,
             { joinedRooms := tr1.joinedRooms ++ str.joinedRooms,
               demoConfig := some args })

/-! ## The UI retry loops (`bs_ui.rs`, `handle_sign_input` lines 473–542 and
`handle_get_address_input` lines 554–628) -/

/-- The `sha256` closure of `handle_sign_input` (lines 480–485):
hex-encoded SHA-256 of the payload bytes. -/
def sha256HexString (data : List Nat) : String :=
  hexEncode (sha256 data)

/-- Room name of signing retry attempt `i`:
`format!("default-signing{}{}", i, sha256(&data_to_sign))`. -/
def signAttemptRoom (data : List Nat) (i : Nat) : String :=
  "default-signing" ++ toString i ++ sha256HexString data

/-- Room name of get-address retry attempt `i`:
`format!("default-get_key{}", i)` — no payload-derived part. -/
def getAddressRoom (i : Nat) : String :=
  "default-get_key" ++ toString i

/-- The `SigningConfig` built by signing retry attempt `i`. -/
def signAttemptConfig (participant_index : Nat) (data : List Nat) (i : Nat) :
    SigningConfig :=
  { room := signAttemptRoom data i,
    address := "http://127.0.0.1:8000",
    parties := [1, 2],
    transaction := true,
    local_share := "local-share" ++ toString participant_index ++ ".json",
    data_to_sign := data,
    idx := participant_index }

/-- The `SigningConfig` built by get-address retry attempt `i` (the payload
is the hard-coded hex string of lines 574–577). -/
def getAddressConfig (participant_index : Nat) (i : Nat) : SigningConfig :=
  { room := getAddressRoom i,
    address := "http://127.0.0.1:8000",
    parties := [1, 2],
    transaction := false,
    local_share := "local-share" ++ toString participant_index ++ ".json",
    data_to_sign :=
      asciiBytes "fdd4d9893b23aa6cdb357e1606907c6909a1231595549e698f779a141d4534c7",
    idx := participant_index }

/-- Result of `timeout(Duration::from_secs(30), do_sign(config))` for one
attempt: `Ok(Ok(_))`, `Ok(Err(_))`, or `Err(Elapsed)`. -/
inductive AttemptResult
  | success (r : SigningResult)
  | failure (e : BsError)
  | elapsed
  deriving DecidableEq, Repr

/-- The attempt runner: each retry attempt spawns a fresh runtime and runs
`do_sign` under a 30-second timeout against the live network, so its result
may differ per attempt; it is supplied as a function of the attempt index
and the attempt's config. -/
structure UiEnv where
  runAttempt : Nat → SigningConfig → AttemptResult

/-- State accumulated by a retry loop: the attempts made (index, timeout
seconds, room), the successive writes to `error.raw`, and the final
contents of the success dump (`output.raw` / `address.raw`). -/
structure UiState where
  attempts : List (Nat × Nat × String) := []
  errorWrites : List AttemptResult := []
  outputRaw : Option SigningResult := none
  deriving DecidableEq, Repr

/-- The signing retry loop body (`for i in 0..10`): run attempt `i` under a
30-second timeout in room `signAttemptRoom data i`; on success write the
result dump and `break`; on failure or timeout write `error.raw` and
continue with the next index. -/
def runSignAttempts (env : UiEnv) (pidx : Nat) (data : List Nat) :
    List Nat → UiState → UiState
  | [], st => st
  | i :: rest, st =>
    let config := signAttemptConfig pidx data i
    let st1 := { st with attempts := st.attempts ++ [(i, 30, config.room)] }
    match env.runAttempt i config with
    | .success r => { st1 with outputRaw := some r }
    | .failure e =>
      runSignAttempts env pidx data rest
        { st1 with errorWrites := st1.errorWrites ++ [.failure e] }
    | .elapsed =>
      runSignAttempts env pidx data rest
        { st1 with errorWrites := st1.errorWrites ++ [.elapsed] }

/-- `handle_sign_input` on Enter with the PSBT field selected: the
10-attempt retry loop over `do_sign`. -/
def handle_sign_enter (env : UiEnv) (pidx : Nat) (data : List Nat) : UiState :=
  runSignAttempts env pidx data (List.range 10) {}

/-- The get-address retry loop body, same shape with the hard-coded payload
and index-only rooms. -/
def runGetAddressAttempts (env : UiEnv) (pidx : Nat) :
    List Nat → UiState → UiState
  | [], st => st
  | i :: rest, st =>
    let config := getAddressConfig pidx i
    let st1 := { st with attempts := st.attempts ++ [(i, 30, config.room)] }
    match env.runAttempt i config with
    | .success r => { st1 with outputRaw := some r }
    | .failure e =>
      runGetAddressAttempts env pidx rest
        { st1 with errorWrites := st1.errorWrites ++ [.failure e] }
    | .elapsed =>
      runGetAddressAttempts env pidx rest
        { st1 with errorWrites := st1.errorWrites ++ [.elapsed] }

/-- `handle_get_address_input` on Enter with the OK button selected. -/
def handle_get_address_enter (env : UiEnv) (pidx : Nat) : UiState :=
  runGetAddressAttempts env pidx (List.range 10) {}

/-- Whether signing attempt `i` would succeed. -/
def attemptSucceeds (env : UiEnv) (pidx : Nat) (data : List Nat) (i : Nat) :
    Bool :=
  match env.runAttempt i (signAttemptConfig pidx data i) with
  | .success _ => true
  | _ => false

/-- Index of the first successful signing attempt, if any. -/
def firstSuccessIdx (env : UiEnv) (pidx : Nat) (data : List Nat) : Option Nat :=
  (List.range 10).find? (attemptSucceeds env pidx data)

/-! ## Helper lemmas -/

theorem hexDigitVal_hexDigit : ∀ n < 16, hexDigitVal (hexDigit n) = some n := by
  decide

theorem hexDecodeChars_hexEncodeChars (bs : List Nat) (h : ∀ b ∈ bs, b < 256) :
    hexDecodeChars (hexEncodeChars bs) = some bs := by
  induction bs with
  | nil => rfl
  | cons b t ih =>
    have hb : b < 256 := h b (List.mem_cons_self ..)
    have h1 : hexDigitVal (hexDigit (b / 16)) = some (b / 16) :=
      hexDigitVal_hexDigit _ (by omega)
    have h2 : hexDigitVal (hexDigit (b % 16)) = some (b % 16) :=
      hexDigitVal_hexDigit _ (by omega)
    have ht := ih (fun x hx => h x (List.mem_cons_of_mem _ hx))
    have hb' : b / 16 * 16 + b % 16 = b := by omega
    simp only [hexEncodeChars, List.flatMap_cons] at *
    simp [hexDecodeChars, h1, h2, ht, hb']

theorem hexDecode_hexEncode (bs : List Nat) (h : ∀ b ∈ bs, b < 256) :
    hexDecode (hexEncode bs) = some bs :=
  hexDecodeChars_hexEncodeChars bs h

theorem hexEncode_injOn (bs1 bs2 : List Nat) (h1 : ∀ b ∈ bs1, b < 256)
    (h2 : ∀ b ∈ bs2, b < 256) (he : hexEncode bs1 = hexEncode bs2) :
    bs1 = bs2 := by
  have := hexDecode_hexEncode bs1 h1
  rw [he, hexDecode_hexEncode bs2 h2] at this
  exact (Option.some_inj.mp this).symm

theorem hexEncodeChars_length (bs : List Nat) :
    (hexEncodeChars bs).length = 2 * bs.length := by
  induction bs with
  | nil => rfl
  | cons b t ih =>
    simp only [hexEncodeChars, List.flatMap_cons] at *
    simp [ih]
    omega

theorem hexEncode_length (bs : List Nat) :
    (hexEncode bs).length = 2 * bs.length :=
  hexEncodeChars_length bs

theorem sha256_byte_lt (msg : List Nat) : ∀ b ∈ sha256 msg, b < 256 := by
  intro b hb
  simp only [sha256, List.mem_flatMap] at hb
  obtain ⟨w, _, hw⟩ := hb
  simp only [List.mem_cons, List.not_mem_nil, or_false] at hw
  rcases hw with h | h | h | h <;> subst h <;> exact Nat.mod_lt _ (by omega)

theorem string_append_right_ne (p s t : String) (h : s.data ≠ t.data) :
    p ++ s ≠ p ++ t := by
  intro he
  exact h (List.append_cancel_left (congrArg String.data he))

theorem awaitPartials_open_ok_length (msgs : List (Except String Nat)) (k : Nat)
    (ps : List Nat) (h : awaitPartials false msgs k = some (.ok ps)) :
    ps.length = k := by
  induction msgs generalizing k ps with
  | nil =>
    cases k with
    | zero =>
      simp only [awaitPartials] at h
      cases h
      rfl
    | succ n => simp [awaitPartials] at h
  | cons m rest ih =>
    cases k with
    | zero =>
      simp only [awaitPartials] at h
      cases h
      rfl
    | succ n =>
      simp only [awaitPartials] at h
      match m with
      | .error e => simp at h
      | .ok a =>
        simp only [Option.map_eq_some'] at h
        obtain ⟨r, hr, hmap⟩ := h
        match r with
        | .error e => simp [Except.map] at hmap
        | .ok l =>
          simp only [Except.map, Except.ok.injEq] at hmap
          cases hmap
          simp [ih n l hr]

theorem awaitPartials_ok_length_le (closed : Bool)
    (msgs : List (Except String Nat)) (k : Nat) (ps : List Nat)
    (h : awaitPartials closed msgs k = some (.ok ps)) :
    ps.length ≤ k := by
  induction msgs generalizing k ps with
  | nil =>
    cases k with
    | zero =>
      simp only [awaitPartials] at h
      cases h
      simp
    | succ n =>
      simp only [awaitPartials] at h
      by_cases hc : closed = true
      · simp [hc] at h
        cases h
        simp
      · simp [Bool.not_eq_true] at hc
        simp [hc] at h
  | cons m rest ih =>
    cases k with
    | zero =>
      simp only [awaitPartials] at h
      cases h
      simp
    | succ n =>
      simp only [awaitPartials] at h
      match m with
      | .error e => simp at h
      | .ok a =>
        simp only [Option.map_eq_some'] at h
        obtain ⟨r, hr, hmap⟩ := h
        match r with
        | .error e => simp [Except.map] at hmap
        | .ok l =>
          simp only [Except.map, Except.ok.injEq] at hmap
          cases hmap
          simpa using ih n l hr

theorem decodePushesAux_two (a b : List Nat) (fuel : Nat)
    (ha0 : 0 < a.length) (ha : a.length < 76)
    (hb0 : 0 < b.length) (hb : b.length < 76)
    (hfuel : a.length + b.length + 2 ≤ fuel) :
    decodePushesAux fuel (pushSliceEnc a ++ pushSliceEnc b) = some [a, b] := by
  match fuel, hfuel with
  | f1 + 1, hfuel =>
    rw [pushSliceEnc, pushSliceEnc, if_pos ha, if_pos hb]
    show decodePushesAux (f1 + 1) (a.length :: (a ++ b.length :: b)) = some [a, b]
    rw [decodePushesAux]
    rw [if_neg (by omega)]
    rw [if_neg (by simp only [List.length_append, List.length_cons]; omega)]
    have hdrop : (a ++ b.length :: b).drop a.length = b.length :: b :=
      List.drop_left _ _
    have htake : (a ++ b.length :: b).take a.length = a :=
      List.take_left _ _
    rw [hdrop, htake]
    match f1, (by omega : b.length + 1 ≤ f1) with
    | f2 + 1, _ =>
      rw [decodePushesAux]
      rw [if_neg (by omega)]
      rw [if_neg (by simp)]
      rw [List.drop_length, List.take_length]
      match f2, (by omega : 1 ≤ f2 + 1) with
      | f3, _ =>
        have : decodePushesAux f3 ([] : List Nat) = some [] := by
          cases f3 <;> rfl
        rw [this]
        rfl

theorem decodePushes_two (a b : List Nat)
    (ha0 : 0 < a.length) (ha : a.length < 76)
    (hb0 : 0 < b.length) (hb : b.length < 76) :
    decodePushes (pushSliceEnc a ++ pushSliceEnc b) = some [a, b] := by
  have hlen : (pushSliceEnc a ++ pushSliceEnc b).length =
      a.length + b.length + 2 := by
    rw [pushSliceEnc, pushSliceEnc, if_pos ha, if_pos hb]
    simp [List.length_append]
    omega
  rw [decodePushes, hlen]
  exact decodePushesAux_two a b _ ha0 ha hb0 hb (le_refl _)

/-! ## Concrete instances used by the witnesses -/

/-- A one-input PSBT token. -/
def psbt0 : Psbt := { inputs := [{}], txBody := 0 }

/-- A fully cooperative environment: every external call succeeds, the
online room stays open and delivers exactly one message body. -/
def env0 : Env :=
  { join := fun _ _ => .ok 1,
    parseLocalShare := fun _ => .ok 7,
    offlineStageNew := fun _ _ _ => .ok 8,
    runOffline := fun _ => .ok 9,
    psbtFromStr := fun _ => .ok psbt0,
    sighashEcdsa0 := fun _ => .ok (List.replicate 32 5),
    signManualNew := fun _ _ => .ok (10, 11),
    sendResult := .ok (),
    onlineClosed := false,
    onlineMsgs := [.ok 21],
    complete := fun _ _ => .ok ⟨2 ^ 255 + 3, 2 ^ 255 + 7, 1⟩,
    recover := fun _ _ _ => .ok 30,
    serializePubkey := fun _ _ => 4 :: List.replicate 64 9,
    serializeDer := fun _ => List.replicate 70 2,
    hash160 := fun _ => List.replicate 20 1,
    addressToString := fun _ => "addr",
    serializeHex := fun _ => "txhex",
    keygenNew := fun _ _ _ => .ok 40,
    runKeygen := fun _ => .ok 41,
    serializeShare := fun _ => [1, 2, 3] }

/-- A file system holding one local share file. -/
def fs0 : FS := fun p => if p = "share.json" then some [123] else none

/-- A two-cosigner message-signing configuration. -/
def cfg0 : SigningConfig :=
  { address := "http://a", room := "r", local_share := "share.json",
    parties := [1, 2], data_to_sign := [], transaction := false, idx := 1 }

/-- The same configuration in transaction mode. -/
def cfgTx : SigningConfig := { cfg0 with transaction := true }

/-! ## C9 — offline room then online room, distinct namespaces -/

/-- C9: for every `SigningConfig` with base room `room`, `do_sign` first
joins `"{room}-offline"` and then the distinct room `"{room}-online"`; the
joined-room trace is always a prefix of that two-element sequence, a
successful run joins both in that order, and the two room names never
coincide. -/
theorem c9_offline_then_online (env : Env) (fs : FS) (args : SigningConfig)
    (out : SignOutcome) (tr : SignTrace) (h : do_sign env fs args = (out, tr)) :
    (tr.joinedRooms = [] ∨ tr.joinedRooms = [args.room ++ "-offline"] ∨
      tr.joinedRooms = [args.room ++ "-offline", args.room ++ "-online"]) ∧
    (∀ r, out = .ok r →
      tr.joinedRooms = [args.room ++ "-offline", args.room ++ "-online"]) ∧
    args.room ++ "-offline" ≠ args.room ++ "-online" := by
  refine ⟨?_, ?_, string_append_right_ne _ _ _ (by decide)⟩ <;>
  · simp only [do_sign] at h
    repeat' split at h
    all_goals
      (injection h with h1 h2; subst h1; subst h2;
       simp_all)

/-- Witness for C9: the cooperative run joins exactly
`["r-offline", "r-online"]`. -/
theorem c9_witness :
    (do_sign env0 fs0 cfg0).2.joinedRooms = ["r-offline", "r-online"] := by
  have h := c9_offline_then_online env0 fs0 cfg0
    (do_sign env0 fs0 cfg0).1 (do_sign env0 fs0 cfg0).2 rfl
  exact h.2.1 { pubkey := hexEncode (4 :: List.replicate 64 9),
                address := "addr", out_dir := "share.json",
                signined_tx := none } (by decide)

/-! ## C1 — digest selection -/

theorem pubKeyFromSlice_eq (bs x : List Nat) (h : pubKeyFromSlice bs = some x) :
    x = bs := by
  unfold pubKeyFromSlice at h
  repeat' split at h
  all_goals simp_all

theorem computeDigest_ok (env : Env) (args : SigningConfig) (d : List Nat)
    (hwf : ∀ ptx hh, env.sighashEcdsa0 ptx = .ok hh → ∀ b ∈ hh, b < 256)
    (h : computeDigest env args = .ok d) :
    (args.transaction = false → d = sha256 args.data_to_sign) ∧
    (args.transaction = true → ∀ ptx hh,
      env.psbtFromStr args.data_to_sign = .ok ptx →
      env.sighashEcdsa0 ptx = .ok hh → d = hh) := by
  unfold computeDigest at h
  split at h
  case isTrue htx =>
    constructor
    · intro hf
      rw [hf] at htx
      cases htx
    · intro _ ptx hh hp hs
      repeat' split at h
      all_goals simp_all
      all_goals rename_i hdec
      all_goals
        (have hb := hwf _ _ (by assumption)
         rw [hexDecode_hexEncode _ hb] at hdec
         injection hdec with hdec
         exact hdec.symm)
  case isFalse htx =>
    refine ⟨fun _ => by simp_all, fun ht => absurd ht (by simp_all)⟩

theorem do_sign_digest (env : Env) (fs : FS) (args : SigningConfig)
    (out : SignOutcome) (tr : SignTrace) (d : List Nat)
    (h : do_sign env fs args = (out, tr)) (hd : tr.digest = some d) :
    computeDigest env args = .ok d := by
  simp only [do_sign] at h
  repeat' split at h
  all_goals (injection h with h1 h2; subst h1; subst h2; simp_all)

/-- C1: whenever `do_sign` computes a digest, it is the input-0 ECDSA
sighash of the payload parsed as a partially-signed transaction when
`transaction` is set, and exactly the SHA-256 of the raw payload bytes
otherwise.  (The well-formedness hypothesis records the boundary fact that
a sighash is 32 bytes, i.e. bytes below 256.) -/
theorem c1_compute_digest (env : Env) (fs : FS) (args : SigningConfig)
    (out : SignOutcome) (tr : SignTrace) (d : List Nat)
    (hwf : ∀ ptx hh, env.sighashEcdsa0 ptx = .ok hh → ∀ b ∈ hh, b < 256)
    (h : do_sign env fs args = (out, tr)) (hd : tr.digest = some d) :
    (args.transaction = false → d = sha256 args.data_to_sign) ∧
    (args.transaction = true → ∀ ptx hh,
      env.psbtFromStr args.data_to_sign = .ok ptx →
      env.sighashEcdsa0 ptx = .ok hh → d = hh) :=
  computeDigest_ok env args d hwf (do_sign_digest env fs args out tr d h hd)

/-- Witness for C1: in the cooperative non-transaction run the recorded
digest is exactly `sha256` of the payload bytes. -/
theorem c1_witness :
    (∀ ptx hh, env0.sighashEcdsa0 ptx = .ok hh → ∀ b ∈ hh, b < 256) ∧
    sha256 [] = sha256 cfg0.data_to_sign := by
  have hwf : ∀ ptx hh, env0.sighashEcdsa0 ptx = .ok hh → ∀ b ∈ hh, b < 256 := by
    intro ptx hh hk b hb
    cases hk
    have := List.eq_of_mem_replicate hb
    omega
  refine ⟨hwf, ?_⟩
  exact (c1_compute_digest env0 fs0 cfg0 (do_sign env0 fs0 cfg0).1
    (do_sign env0 fs0 cfg0).2 (sha256 []) hwf rfl (by decide)).1 rfl

/-! ## C10 — the cosigner count subtraction -/

/-- C10: `do_sign` computes the number of partials to await as
`parties.len() - 1` by unchecked `usize` subtraction.  With a non-empty
cosigner list the count is the exact mathematical `len − 1` and the
underflow panic is unreachable; with an empty list the subtraction
underflows, and a run that got as far as broadcasting its partial signature
then dies on exactly that subtraction. -/
theorem c10_await_count_sub (env : Env) (fs : FS) (args : SigningConfig)
    (out : SignOutcome) (tr : SignTrace) (h : do_sign env fs args = (out, tr)) :
    (args.parties ≠ [] →
      usizeSub args.parties.length 1 = some (args.parties.length - 1) ∧
      out ≠ .panicked "attempt to subtract with overflow") ∧
    (args.parties = [] →
      usizeSub args.parties.length 1 = none ∧
      (env.sendResult = .ok () → tr.sent ≠ [] →
        out = .panicked "attempt to subtract with overflow")) := by
  constructor
  · intro hne
    have hlen : 1 ≤ args.parties.length := by
      cases hp : args.parties with
      | nil => exact absurd hp hne
      | cons a t => simp [hp]
    refine ⟨by simp [usizeSub, hlen], ?_⟩
    simp only [do_sign] at h
    repeat' split at h
    all_goals (injection h with h1 h2; subst h1; subst h2; try simp_all)
    all_goals simp_all [usizeSub]
  · intro hemp
    refine ⟨by simp [usizeSub, hemp], ?_⟩
    intro hsend hsent
    simp only [do_sign] at h
    repeat' split at h
    all_goals (injection h with h1 h2; subst h1; subst h2; try simp_all)
    all_goals simp_all [usizeSub, hemp]

/-- Witness for C10: with the two-element cosigner list of `cfg0` the count
is well-defined (`1`) and the cooperative run does not underflow. -/
theorem c10_witness :
    usizeSub cfg0.parties.length 1 = some (cfg0.parties.length - 1) ∧
    (do_sign env0 fs0 cfg0).1 ≠ .panicked "attempt to subtract with overflow" :=
  (c10_await_count_sub env0 fs0 cfg0 (do_sign env0 fs0 cfg0).1
    (do_sign env0 fs0 cfg0).2 rfl).1 (by decide)

/-! ## C3 — one broadcast, aggregation after exactly n − 1 partials -/

/-- C3: every `do_sign` run broadcasts at most one partial-signature
message, always as a broadcast (no receiver), and a successful run
broadcasts exactly one; the engine's `complete` is only ever invoked on a
collected list of at most `parties.len() − 1` external partials, and when
the online room stays open (the incoming stream does not terminate early,
which is the relay's contract) `complete` is invoked only with exactly
`parties.len() − 1` of them — with fewer collected, the run never reaches
completion. -/
theorem do_sign_sent_shape (env : Env) (fs : FS) (args : SigningConfig)
    (out : SignOutcome) (tr : SignTrace) (h : do_sign env fs args = (out, tr)) :
    (tr.sent = [] ∨ ∃ i b, tr.sent = [⟨i, none, b⟩]) ∧
    (∀ r, out = .ok r → ∃ i b, tr.sent = [⟨i, none, b⟩]) := by
  simp only [do_sign] at h
  repeat' split at h
  all_goals (injection h with h1 h2; subst h1; subst h2)
  all_goals refine ⟨?_, fun r hr => ?_⟩
  all_goals try simp at hr
  all_goals first
    | exact Or.inl rfl
    | exact Or.inr ⟨_, _, rfl⟩
    | exact ⟨_, _, rfl⟩

theorem do_sign_completeCalls_shape (env : Env) (fs : FS) (args : SigningConfig)
    (out : SignOutcome) (tr : SignTrace) (h : do_sign env fs args = (out, tr)) :
    tr.completeCalls = [] ∨
    ∃ k ps, usizeSub args.parties.length 1 = some k ∧
      awaitPartials env.onlineClosed env.onlineMsgs k = some (.ok ps) ∧
      tr.completeCalls = [ps] := by
  simp only [do_sign] at h
  repeat' split at h
  all_goals (injection h with h1 h2; subst h1; subst h2)
  all_goals first
    | exact Or.inl rfl
    | exact Or.inr ⟨_, _, by assumption, by assumption, rfl⟩

/-- C3: every `do_sign` run broadcasts at most one partial-signature
message, always as a broadcast (no receiver), and a successful run
broadcasts exactly one; the engine's `complete` is only ever invoked on a
collected list of at most `parties.len() − 1` external partials, and when
the online room stays open (the incoming stream does not terminate early,
which is the relay's contract) `complete` is invoked only with exactly
`parties.len() − 1` of them — with fewer collected, the run never reaches
completion. -/
theorem c3_exchange_and_aggregate (env : Env) (fs : FS) (args : SigningConfig)
    (out : SignOutcome) (tr : SignTrace) (h : do_sign env fs args = (out, tr)) :
    tr.sent.length ≤ 1 ∧
    (∀ m ∈ tr.sent, m.receiver = none) ∧
    (∀ r, out = .ok r → tr.sent.length = 1) ∧
    (∀ ps ∈ tr.completeCalls, ps.length ≤ args.parties.length - 1) ∧
    (env.onlineClosed = false →
      ∀ ps ∈ tr.completeCalls, ps.length = args.parties.length - 1) := by
  obtain ⟨hshape, hok⟩ := do_sign_sent_shape env fs args out tr h
  have hcc := do_sign_completeCalls_shape env fs args out tr h
  have hkk : ∀ k, usizeSub args.parties.length 1 = some k →
      k = args.parties.length - 1 := by
    intro k hk
    simp only [usizeSub] at hk
    split at hk
    · exact (Option.some_inj.mp hk).symm
    · cases hk
  refine ⟨?_, ?_, ?_, ?_, ?_⟩
  · rcases hshape with h0 | ⟨i, b, h1⟩
    · simp [h0]
    · simp [h1]
  · intro m hm
    rcases hshape with h0 | ⟨i, b, h1⟩
    · rw [h0] at hm
      cases hm
    · rw [h1] at hm
      simp at hm
      rw [hm]
  · intro r hr
    obtain ⟨i, b, h1⟩ := hok r hr
    simp [h1]
  · intro ps hps
    rcases hcc with h0 | ⟨k, ps', hsub, hawait, h1⟩
    · rw [h0] at hps
      cases hps
    · rw [h1] at hps
      simp at hps
      subst hps
      rw [hkk k hsub] at hawait
      exact awaitPartials_ok_length_le _ _ _ _ hawait
  · intro hopen ps hps
    rcases hcc with h0 | ⟨k, ps', hsub, hawait, h1⟩
    · rw [h0] at hps
      cases hps
    · rw [h1] at hps
      simp at hps
      subst hps
      rw [hkk k hsub, hopen] at hawait
      exact awaitPartials_open_ok_length _ _ _ hawait

/-- Witness for C3: the cooperative two-cosigner run broadcasts exactly one
message and hands `complete` exactly one external partial. -/
theorem c3_witness :
    (do_sign env0 fs0 cfg0).2.sent.length = 1 ∧
    (∀ ps ∈ (do_sign env0 fs0 cfg0).2.completeCalls,
      ps.length = cfg0.parties.length - 1) := by
  have h := c3_exchange_and_aggregate env0 fs0 cfg0 (do_sign env0 fs0 cfg0).1
    (do_sign env0 fs0 cfg0).2 rfl
  exact ⟨h.2.2.1 { pubkey := hexEncode (4 :: List.replicate 64 9),
                   address := "addr", out_dir := "share.json",
                   signined_tx := none } (by decide),
         h.2.2.2.2 rfl⟩

/-! ## C4 — direct recovery and the legacy test-network address -/

theorem recoveryIdFromI32_eq (n m : Nat) (h : recoveryIdFromI32 n = some m) :
    m = n := by
  unfold recoveryIdFromI32 at h
  split at h
  · exact (Option.some_inj.mp h).symm
  · cases h

theorem deriveAddressString_ok_eq (env : Env) (pkBytes : List Nat) (addr : String)
    (hwf : ∀ b ∈ pkBytes, b < 256)
    (h : deriveAddressString env (hexEncode pkBytes) = .ok addr) :
    addr = env.addressToString ⟨.signet, .pubkeyHash (env.hash160 pkBytes)⟩ := by
  unfold deriveAddressString at h
  split at h
  · cases h
  next pkDecoded hdec =>
    split at h
    · cases h
    next bpk hp =>
      have h1 : pkDecoded = pkBytes := by
        rw [hexDecode_hexEncode _ hwf] at hdec
        exact (Option.some_inj.mp hdec).symm
      have h2 : bpk = pkDecoded := pubKeyFromSlice_eq _ _ hp
      injection h with h3
      rw [← h3, h2, h1]

theorem do_sign_ok_shape (env : Env) (fs : FS) (args : SigningConfig)
    (out : SignOutcome) (tr : SignTrace) (r : SigningResult)
    (h : do_sign env fs args = (out, tr)) (hok : out = .ok r) :
    ∃ d a rid pk,
      tr.digest = some d ∧
      tr.aggResult = some a ∧
      recoveryIdFromI32 a.recid = some rid ∧
      tr.recoverCalls = [(d, natToBytesBE a.r ++ natToBytesBE a.s, rid)] ∧
      env.recover d (natToBytesBE a.r ++ natToBytesBE a.s) rid = .ok pk ∧
      r.pubkey = hexEncode (env.serializePubkey pk false) ∧
      deriveAddressString env (hexEncode (env.serializePubkey pk false)) =
        .ok r.address := by
  simp only [do_sign] at h
  repeat' split at h
  all_goals (injection h with h1 h2; subst h1; subst h2)
  all_goals cases hok
  all_goals
    exact ⟨_, _, _, _, rfl, rfl, by assumption, rfl, by assumption, rfl,
           by assumption⟩

/-- C4: a successful `do_sign` run makes exactly one public-key recovery
call, at the computed digest with the aggregated `(r, s)` and the
engine-supplied recovery id passed through unchanged (no iteration over
candidate ids), and derives the returned address from the recovered,
uncompressed-serialized key as a legacy pay-to-pubkey-hash address on the
Signet test network.  (The hypothesis records the boundary fact that
serialized public key bytes are bytes.) -/
theorem c4_recover_with_engine_recid (env : Env) (fs : FS)
    (args : SigningConfig) (out : SignOutcome) (tr : SignTrace)
    (r : SigningResult) (h : do_sign env fs args = (out, tr))
    (hok : out = .ok r)
    (hpkwf : ∀ pk, ∀ b ∈ env.serializePubkey pk false, b < 256) :
    ∃ d a pk,
      tr.digest = some d ∧
      tr.aggResult = some a ∧
      tr.recoverCalls = [(d, natToBytesBE a.r ++ natToBytesBE a.s, a.recid)] ∧
      env.recover d (natToBytesBE a.r ++ natToBytesBE a.s) a.recid = .ok pk ∧
      r.pubkey = hexEncode (env.serializePubkey pk false) ∧
      r.address = env.addressToString
        ⟨Network.signet,
         .pubkeyHash (env.hash160 (env.serializePubkey pk false))⟩ ∧
      Network.signet.isTestNetwork = true := by
  obtain ⟨d, a, rid, pk, hd, ha, hrid, hcalls, hrec, hpub, haddr⟩ :=
    do_sign_ok_shape env fs args out tr r h hok
  have hre : rid = a.recid := recoveryIdFromI32_eq _ _ hrid
  subst hre
  exact ⟨d, a, pk, hd, ha, hcalls, hrec, hpub,
    deriveAddressString_ok_eq env _ _ (hpkwf pk) haddr, rfl⟩

/-- Witness for C4: the cooperative non-transaction run recovers once with
the engine recid `1` and returns the Signet p2pkh address string. -/
theorem c4_witness :
    (∀ pk, ∀ b ∈ env0.serializePubkey pk false, b < 256) ∧
    ∃ d a pk,
      (do_sign env0 fs0 cfg0).2.digest = some d ∧
      (do_sign env0 fs0 cfg0).2.aggResult = some a ∧
      (do_sign env0 fs0 cfg0).2.recoverCalls =
        [(d, natToBytesBE a.r ++ natToBytesBE a.s, a.recid)] ∧
      env0.recover d (natToBytesBE a.r ++ natToBytesBE a.s) a.recid = .ok pk ∧
      ({ pubkey := hexEncode (4 :: List.replicate 64 9), address := "addr",
         out_dir := "share.json",
         signined_tx := none } : SigningResult).pubkey =
        hexEncode (env0.serializePubkey pk false) ∧
      ({ pubkey := hexEncode (4 :: List.replicate 64 9), address := "addr",
         out_dir := "share.json",
         signined_tx := none } : SigningResult).address =
        env0.addressToString
          ⟨Network.signet,
           .pubkeyHash (env0.hash160 (env0.serializePubkey pk false))⟩ ∧
      Network.signet.isTestNetwork = true := by
  have hpkwf : ∀ pk, ∀ b ∈ env0.serializePubkey pk false, b < 256 := by
    intro pk
    show ∀ b ∈ (4 :: List.replicate 64 9), b < 256
    decide
  exact ⟨hpkwf, c4_recover_with_engine_recid env0 fs0 cfg0
    (do_sign env0 fs0 cfg0).1 (do_sign env0 fs0 cfg0).2
    { pubkey := hexEncode (4 :: List.replicate 64 9), address := "addr",
      out_dir := "share.json", signined_tx := none } rfl (by decide) hpkwf⟩

/-! ## C2 — transaction finalization -/

/-- The finalized transaction of a transaction-mode run: input 0 of the
reparsed PSBT gets the two-push script of the aggregated signature and the
recovered key, and the transaction is extracted. -/
def splicedTx (env : Env) (a : AggSig) (pk : Nat) (ptx : Psbt)
    (inp0 : PsbtInput) (rest : List PsbtInput) : Tx :=
  Psbt.extractTx
    { ptx with inputs := { inp0 with finalScriptSig := some (buildScriptSig env
        (natToBytesBE a.r ++ natToBytesBE a.s)
        (env.serializePubkey pk false)) } :: rest }

theorem do_sign_tx_shape (env : Env) (fs : FS) (args : SigningConfig)
    (out : SignOutcome) (tr : SignTrace) (r : SigningResult)
    (h : do_sign env fs args = (out, tr)) (hok : out = .ok r)
    (htx : args.transaction = true) :
    (∃ a pk ptx inp0 rest,
      tr.aggResult = some a ∧
      env.psbtFromStr args.data_to_sign = .ok ptx ∧
      ptx.inputs = inp0 :: rest ∧
      r.pubkey = hexEncode (env.serializePubkey pk false) ∧
      r.signined_tx = some (env.serializeHex (splicedTx env a pk ptx inp0 rest))) := by
  simp only [do_sign] at h
  repeat' split at h
  all_goals (injection h with h1 h2; subst h1; subst h2)
  all_goals cases hok
  all_goals first
    | exact absurd htx (by assumption)
    | exact ⟨_, _, _, _, _, rfl, by assumption, by assumption, rfl, rfl⟩

/-- C2: in a successful transaction-mode run, the finalized script for
input 0 is exactly two data pushes — the DER signature of the aggregated
`(r, s)` with one appended sighash byte `1`, then the uncompressed public
key — spliced into input 0 of the reparsed original transaction, and the
returned raw hex is the consensus serialization of exactly that spliced
transaction (a pure function of `(r, s, recoveryId, publicKey)` and the
input transaction, hence byte-identical across runs).  The hypotheses are
the boundary facts that a DER ECDSA signature is at most 72 bytes and an
uncompressed public key serializes to 65 bytes. -/
theorem c2_finalize_script (env : Env) (fs : FS) (args : SigningConfig)
    (out : SignOutcome) (tr : SignTrace) (r : SigningResult)
    (h : do_sign env fs args = (out, tr)) (hok : out = .ok r)
    (htx : args.transaction = true)
    (hder : ∀ c, (env.serializeDer c).length ≤ 72)
    (hpk : ∀ pk, (env.serializePubkey pk false).length = 65) :
    ∃ a pk ptx inp0 rest,
      tr.aggResult = some a ∧
      env.psbtFromStr args.data_to_sign = .ok ptx ∧
      ptx.inputs = inp0 :: rest ∧
      decodePushes (buildScriptSig env (natToBytesBE a.r ++ natToBytesBE a.s)
          (env.serializePubkey pk false)) =
        some [env.serializeDer (natToBytesBE a.r ++ natToBytesBE a.s) ++ [1],
              env.serializePubkey pk false] ∧
      (splicedTx env a pk ptx inp0 rest).inputScriptSigs.head? =
        some (buildScriptSig env (natToBytesBE a.r ++ natToBytesBE a.s)
          (env.serializePubkey pk false)) ∧
      r.signined_tx = some (env.serializeHex (splicedTx env a pk ptx inp0 rest)) := by
  obtain ⟨a, pk, ptx, inp0, rest, ha, hparse, hinp, _, hhex⟩ :=
    do_sign_tx_shape env fs args out tr r h hok htx
  refine ⟨a, pk, ptx, inp0, rest, ha, hparse, hinp, ?_, ?_, hhex⟩
  · unfold buildScriptSig
    apply decodePushes_two
    · simp
    · have := hder (natToBytesBE a.r ++ natToBytesBE a.s)
      simp [List.length_append]
      omega
    · rw [hpk pk]
      omega
    · rw [hpk pk]
      omega
  · simp [splicedTx, Psbt.extractTx]

/-- Witness for C2: the cooperative transaction-mode run returns the hex of
the spliced transaction, and its input-0 script decodes to the two pushes. -/
theorem c2_witness :
    cfgTx.transaction = true ∧
    (∀ c, (env0.serializeDer c).length ≤ 72) ∧
    (∀ pk, (env0.serializePubkey pk false).length = 65) ∧
    ∃ a pk ptx inp0 rest,
      (do_sign env0 fs0 cfgTx).2.aggResult = some a ∧
      env0.psbtFromStr cfgTx.data_to_sign = .ok ptx ∧
      ptx.inputs = inp0 :: rest ∧
      decodePushes (buildScriptSig env0 (natToBytesBE a.r ++ natToBytesBE a.s)
          (env0.serializePubkey pk false)) =
        some [env0.serializeDer (natToBytesBE a.r ++ natToBytesBE a.s) ++ [1],
              env0.serializePubkey pk false] ∧
      (splicedTx env0 a pk ptx inp0 rest).inputScriptSigs.head? =
        some (buildScriptSig env0 (natToBytesBE a.r ++ natToBytesBE a.s)
          (env0.serializePubkey pk false)) ∧
      ({ pubkey := hexEncode (4 :: List.replicate 64 9), address := "addr",
         out_dir := "share.json",
         signined_tx := some "txhex" } : SigningResult).signined_tx =
        some (env0.serializeHex (splicedTx env0 a pk ptx inp0 rest)) := by
  have hder : ∀ c, (env0.serializeDer c).length ≤ 72 := by
    intro c
    show (List.replicate 70 2).length ≤ 72
    decide
  have hpk : ∀ pk, (env0.serializePubkey pk false).length = 65 := by
    intro pk
    show (4 :: List.replicate 64 9).length = 65
    decide
  exact ⟨rfl, hder, hpk, c2_finalize_script env0 fs0 cfgTx
    (do_sign env0 fs0 cfgTx).1 (do_sign env0 fs0 cfgTx).2
    { pubkey := hexEncode (4 :: List.replicate 64 9), address := "addr",
      out_dir := "share.json", signined_tx := some "txhex" }
    rfl (by decide) rfl hder hpk⟩

/-! ## C5 — exclusive creation of the share file -/

/-- C5: `do_keygen` creates `config.output` exclusively before anything
else: if the file already exists the call fails with the `ConfigError`
context `"cannot create output file"`, the file system (hence the existing
file's contents) is untouched and no room is joined; and since a first call
on a fresh path always leaves a file at `config.output` (the exclusive
create brings it into existence even before the share is written), a second
call with the same output path fails that way and never overwrites the
share. -/
theorem c5_exclusive_create (env : Env) (fs : FS) (config : KeygenConfig)
    (out : KeygenOutcome) (fs1 : FS) (tr : KTrace)
    (h : do_keygen env fs config = (out, fs1, tr)) :
    (∀ c, fs config.output = some c →
      out = .err (.configError "cannot create output file") ∧ fs1 = fs ∧
      tr.joinedRooms = []) ∧
    (fs config.output = none → fs1 config.output ≠ none) ∧
    (fs config.output = none →
      (do_keygen env fs1 config).1 =
        .err (.configError "cannot create output file") ∧
      (do_keygen env fs1 config).2.1 = fs1) := by
  cases hso : fs config.output with
  | some c =>
    simp only [do_keygen, hso] at h
    injection h with h1 h2
    injection h2 with h2 h3
    subst h1; subst h2; subst h3
    exact ⟨fun c' _ => ⟨rfl, rfl, rfl⟩,
           fun hn => Option.noConfusion hn,
           fun hn => Option.noConfusion hn⟩
  | none =>
    refine ⟨fun c hc => Option.noConfusion hc, ?_, ?_⟩ <;>
    · intro hn
      simp only [do_keygen, hso] at h
      repeat' split at h
      all_goals
        (injection h with h1 h2; injection h2 with h2 h3;
         subst h1; subst h2; subst h3;
         simp [do_keygen, FS.write])

/-- Witness for C5: on a file system where `share.json` exists, `do_keygen`
fails with the exclusive-create `ConfigError`, changes nothing, and joins
no room. -/
theorem c5_witness :
    fs0 ("share.json") = some [123] ∧
    ((do_keygen env0 fs0
        { address := "http://a", room := "kroom", output := "share.json",
          index := 1, threshold := 1, number_of_parties := 2 }).1 =
      .err (.configError "cannot create output file") ∧
     (do_keygen env0 fs0
        { address := "http://a", room := "kroom", output := "share.json",
          index := 1, threshold := 1, number_of_parties := 2 }).2.1 = fs0 ∧
     (do_keygen env0 fs0
        { address := "http://a", room := "kroom", output := "share.json",
          index := 1, threshold := 1, number_of_parties := 2
        }).2.2.joinedRooms = []) := by
  refine ⟨by decide, ?_⟩
  exact (c5_exclusive_create env0 fs0
    { address := "http://a", room := "kroom", output := "share.json",
      index := 1, threshold := 1, number_of_parties := 2 }
    _ _ _ rfl).1 [123] (by decide)

/-! ## C7 — the hard-coded demo signing chained after keygen -/

/-- A fresh (empty) file system. -/
def fsEmpty : FS := fun _ => none

/-- A keygen configuration on a fresh output path. -/
def cfgK : KeygenConfig :=
  { address := "http://a", room := "kroom", output := "out.json",
    index := 1, threshold := 1, number_of_parties := 2 }

/-- `env0` with the online signing room refusing the join: the keygen
ceremony itself still completes and the share is persisted, but the chained
demo signing fails. -/
def envDemoFail : Env :=
  { env0 with join := fun _ room =>
      if room = "room-online" then .error "refused" else .ok 1 }

/-- C7 (code bug): after the keygen engine completes and the share is
persisted, `do_keygen` unconditionally builds the hard-coded demo
`SigningConfig` (room `"room"`, cosigners `[1, 2]`, payload
`"boomersig go brrrr"`), runs `do_sign` with it — joining the demo
ceremony's rooms — and propagates its result: with a demo-failing
environment the whole keygen call errors even though the share file was
already written.  There is no opt-in gate, contradicting the claim. -/
theorem c7_demo_signing_not_gated :
    (do_keygen env0 fsEmpty cfgK).2.2.demoConfig =
      some (demoSigningConfig "out.json") ∧
    (do_keygen env0 fsEmpty cfgK).2.2.joinedRooms =
      ["kroom", "room-offline", "room-online"] ∧
    (do_keygen envDemoFail fsEmpty cfgK).1 =
      .err (.joinError "join online computation") ∧
    (do_keygen envDemoFail fsEmpty cfgK).2.1 cfgK.output = some [1, 2, 3] := by
  decide

/-! ## C6 — the 10-attempt retry loop of `handle_sign_input` -/

theorem runSignAttempts_spec (env : UiEnv) (pidx : Nat) (data : List Nat) :
    ∀ (idxs : List Nat) (st : UiState),
      (idxs.find? (attemptSucceeds env pidx data) = none →
        runSignAttempts env pidx data idxs st =
          { attempts := st.attempts ++
              idxs.map (fun i => (i, 30, signAttemptRoom data i)),
            errorWrites := st.errorWrites ++
              idxs.map (fun i =>
                env.runAttempt i (signAttemptConfig pidx data i)),
            outputRaw := st.outputRaw }) ∧
      (∀ j, idxs.find? (attemptSucceeds env pidx data) = some j →
        ∃ l1 l2 r, idxs = l1 ++ j :: l2 ∧
          (∀ i ∈ l1, attemptSucceeds env pidx data i = false) ∧
          env.runAttempt j (signAttemptConfig pidx data j) = .success r ∧
          runSignAttempts env pidx data idxs st =
            { attempts := st.attempts ++
                (l1 ++ [j]).map (fun i => (i, 30, signAttemptRoom data i)),
              errorWrites := st.errorWrites ++
                l1.map (fun i =>
                  env.runAttempt i (signAttemptConfig pidx data i)),
              outputRaw := some r }) := by
  intro idxs
  induction idxs with
  | nil =>
    intro st
    refine ⟨fun _ => ?_, fun j hj => by cases hj⟩
    simp [runSignAttempts]
  | cons i rest ih =>
    intro st
    by_cases hs : attemptSucceeds env pidx data i = true
    · have hfind : (i :: rest).find? (attemptSucceeds env pidx data) = some i :=
        List.find?_cons_of_pos _ hs
      refine ⟨fun hn => (by rw [hfind] at hn; cases hn), fun j hj => ?_⟩
      rw [hfind] at hj
      injection hj with hj
      subst hj
      unfold attemptSucceeds at hs
      split at hs
      case _ r hr =>
        refine ⟨[], rest, r, rfl, by simp, hr, ?_⟩
        simp only [runSignAttempts, hr]
        simp [signAttemptConfig]
      case _ => cases hs
    · have hs' : attemptSucceeds env pidx data i = false := by
        simpa using hs
      have hfind : (i :: rest).find? (attemptSucceeds env pidx data) =
          rest.find? (attemptSucceeds env pidx data) :=
        List.find?_cons_of_neg _ hs
      have hstep :
          runSignAttempts env pidx data (i :: rest) st =
            runSignAttempts env pidx data rest
              { st with
                attempts := st.attempts ++ [(i, 30, signAttemptRoom data i)],
                errorWrites := st.errorWrites ++
                  [env.runAttempt i (signAttemptConfig pidx data i)] } := by
        unfold attemptSucceeds at hs'
        simp only [runSignAttempts]
        split at hs'
        · cases hs'
        next hne =>
          cases hr : env.runAttempt i (signAttemptConfig pidx data i) with
          | success r => exact absurd rfl (by rw [hr] at hne; exact hne r)
          | failure e => simp [hr, signAttemptConfig]
          | elapsed => simp [hr, signAttemptConfig]
      rw [hfind, hstep]
      obtain ⟨ihn, ihs⟩ := ih
        { st with
          attempts := st.attempts ++ [(i, 30, signAttemptRoom data i)],
          errorWrites := st.errorWrites ++
            [env.runAttempt i (signAttemptConfig pidx data i)] }
      refine ⟨fun hn => ?_, fun j hj => ?_⟩
      · rw [ihn hn]
        simp
      · obtain ⟨l1, l2, r, hsplit, hall, hsucc, hres⟩ := ihs j hj
        refine ⟨i :: l1, l2, r, by simp [hsplit], ?_, hsucc, ?_⟩
        · intro x hx
          rcases List.mem_cons.mp hx with hx | hx
          · subst hx; exact hs'
          · exact hall x hx
        · rw [hres]
          simp

theorem range_split_eq (n j : Nat) (l1 l2 : List Nat)
    (h : List.range n = l1 ++ j :: l2) :
    j = l1.length ∧ l1 = List.range j := by
  have hlen : l1.length < n := by
    have := congrArg List.length h
    simp at this
    omega
  have h1 : (List.range n)[l1.length]? = some j := by
    rw [h, List.getElem?_append_right (le_refl _)]
    simp
  have h2 : (List.range n)[l1.length]? = some l1.length := by
    simp [hlen]
  have hj : j = l1.length :=
    (Option.some_inj.mp (h2.symm.trans h1)).symm
  refine ⟨hj, ?_⟩
  have h3 : (List.range n).take l1.length = l1 := by
    rw [h]
    exact List.take_left _ _
  rw [List.take_range] at h3
  rw [← h3, hj]
  congr 1
  omega

theorem map_fst_attempt (data : List Nat) (l : List Nat) :
    List.map (Prod.fst ∘ fun i => (i, 30, signAttemptRoom data i)) l = l := by
  induction l with
  | nil => rfl
  | cons a t ih => simp only [List.map_cons, Function.comp_apply, ih]

/-- C6: `handle_sign_input`'s retry loop runs at most 10 attempts,
each under a 30-second timeout in room
`"default-signing{i}{sha256-hex(payload)}"`, with attempt indices counting
up from 0; it stops right after the first successful attempt (recording its
result and making no further attempt); every failed attempt's error is
written to `error.raw` in order, and after 10 failures the loop ends with
the 10th attempt's error as the last write — the surfaced error. -/
theorem c6_retry_manager (env : UiEnv) (pidx : Nat) (data : List Nat) :
    (handle_sign_enter env pidx data).attempts.length ≤ 10 ∧
    (∀ e ∈ (handle_sign_enter env pidx data).attempts,
      e.2.1 = 30 ∧ e.2.2 = signAttemptRoom data e.1) ∧
    (handle_sign_enter env pidx data).attempts.map Prod.fst =
      List.range (handle_sign_enter env pidx data).attempts.length ∧
    (∀ j, firstSuccessIdx env pidx data = some j →
      (handle_sign_enter env pidx data).attempts.length = j + 1 ∧
      ∃ r, env.runAttempt j (signAttemptConfig pidx data j) = .success r ∧
        (handle_sign_enter env pidx data).outputRaw = some r) ∧
    (firstSuccessIdx env pidx data = none →
      (handle_sign_enter env pidx data).attempts.length = 10 ∧
      (handle_sign_enter env pidx data).outputRaw = none ∧
      (handle_sign_enter env pidx data).errorWrites =
        (List.range 10).map (fun i =>
          env.runAttempt i (signAttemptConfig pidx data i)) ∧
      (handle_sign_enter env pidx data).errorWrites.getLast? =
        some (env.runAttempt 9 (signAttemptConfig pidx data 9))) := by
  obtain ⟨hnone, hsome⟩ :=
    runSignAttempts_spec env pidx data (List.range 10) {}
  cases hfs : firstSuccessIdx env pidx data with
  | none =>
    have hres := hnone hfs
    unfold handle_sign_enter
    rw [hres]
    refine ⟨by simp, ?_, ?_, ?_, ?_⟩
    · intro e he
      simp only [List.nil_append, List.mem_map] at he
      obtain ⟨i, _, he⟩ := he
      rw [← he]
      exact ⟨rfl, rfl⟩
    · simp only [List.nil_append, List.map_map, List.length_map,
                 map_fst_attempt, List.length_range]
    · intro j hj
      cases hj
    · intro _
      refine ⟨by simp, rfl, by simp, ?_⟩
      have h9 : (List.range 10) = (List.range 9) ++ [9] := by
        rw [← List.range_succ]
      rw [h9, List.map_append, List.nil_append]
      simp
  | some j =>
    obtain ⟨l1, l2, r, hsplit, _, hsucc, hres⟩ := hsome j hfs
    obtain ⟨hj, hl1⟩ := range_split_eq 10 j l1 l2 hsplit
    have hlen10 : l1.length < 10 := by
      have := congrArg List.length hsplit
      simp at this
      omega
    unfold handle_sign_enter
    rw [hres]
    have hl1j : l1 ++ [j] = List.range (j + 1) := by
      rw [List.range_succ, hl1]
    refine ⟨?_, ?_, ?_, ?_, ?_⟩
    · simp only [List.nil_append, List.length_map, hl1j, List.length_range]
      omega
    · intro e he
      simp only [List.nil_append, List.mem_map] at he
      obtain ⟨i, _, he⟩ := he
      rw [← he]
      exact ⟨rfl, rfl⟩
    · simp only [List.nil_append, List.map_map, List.length_map,
                 map_fst_attempt, hl1j, List.length_range]
    · intro j' hj'
      injection hj' with hj'
      subst hj'
      refine ⟨by simp only [List.nil_append, List.length_map, hl1j,
                            List.length_range], r, hsucc, by simp⟩
    · intro hcon
      cases hcon

/-- A UI environment in which every attempt fails with the same error. -/
def uiEnvAllFail : UiEnv := { runAttempt := fun _ _ => .failure (.joinError "down") }

/-- Witness for C6: with every attempt failing, all ten attempts run with
their rooms and the 10th failure is the last `error.raw` write. -/
theorem c6_witness :
    firstSuccessIdx uiEnvAllFail 0 [] = none ∧
    ((handle_sign_enter uiEnvAllFail 0 []).attempts.length = 10 ∧
     (handle_sign_enter uiEnvAllFail 0 []).outputRaw = none ∧
     (handle_sign_enter uiEnvAllFail 0 []).errorWrites =
       (List.range 10).map (fun i =>
         uiEnvAllFail.runAttempt i (signAttemptConfig 0 [] i)) ∧
     (handle_sign_enter uiEnvAllFail 0 []).errorWrites.getLast? =
       some (uiEnvAllFail.runAttempt 9 (signAttemptConfig 0 [] 9))) := by
  refine ⟨by decide, ?_⟩
  exact (c6_retry_manager uiEnvAllFail 0 []).2.2.2.2 (by decide)

/-! ## C8 — retry-room discriminators

The claim reads: *every* retry attempt's room name appends a
payload-hash-derived discriminator.  That is true of the signing path
(`signAttemptRoom`), but the get-address path's rooms
(`getAddressRoom i = "default-get_key{i}"`) append only the attempt index —
no payload-derived part at all — so the claim as stated is refuted at
the get-address path's attempt 0. -/

/-- Counterexample to C8 as stated: the room of get-address retry attempt 0
does not end in any hex-encoded 32-byte hash (it is only 16 characters
long, while a hex digest alone is 64). -/
theorem c8_counterexample_get_address_room :
    ¬ ∃ (pre : String) (hsh : List Nat), hsh.length = 32 ∧
      getAddressRoom 0 = pre ++ hexEncode hsh := by
  rintro ⟨pre, hsh, hlen, he⟩
  have h1 : (getAddressRoom 0).length = 16 := by decide
  have h2 : (pre ++ hexEncode hsh).length = pre.length + 2 * hsh.length := by
    rw [String.length_append]
    have : (hexEncode hsh).length = 2 * hsh.length := hexEncode_length hsh
    omega
  rw [he, h2, hlen] at h1
  omega

/-- C8 (amended): in the signing retry path, every attempt's room is
`"default-signing" ++ i ++ hex(SHA-256(payload))`, so two invocations with
different payloads and the same attempt index get different rooms unless
their SHA-256 digests collide; the get-address retry path's rooms are
`"default-get_key" ++ i`, independent of the (hard-coded) payload. -/
theorem c8_room_discriminators :
    (∀ d i, signAttemptRoom d i =
      "default-signing" ++ toString i ++ hexEncode (sha256 d)) ∧
    (∀ i, getAddressRoom i = "default-get_key" ++ toString i) ∧
    (∀ d1 d2 i, sha256 d1 ≠ sha256 d2 →
      signAttemptRoom d1 i ≠ signAttemptRoom d2 i) := by
  refine ⟨fun d i => rfl, fun i => rfl, fun d1 d2 i hne he => hne ?_⟩
  have hd : ("default-signing" ++ toString i).data ++
      hexEncodeChars (sha256 d1) =
      ("default-signing" ++ toString i).data ++ hexEncodeChars (sha256 d2) :=
    congrArg String.data he
  have h3 : hexEncodeChars (sha256 d1) = hexEncodeChars (sha256 d2) :=
    List.append_cancel_left hd
  exact hexEncode_injOn _ _ (sha256_byte_lt _) (sha256_byte_lt _)
    (congrArg String.mk h3)

/-- Witness for the amended C8: the empty payload and the one-byte payload
`[0]` have different digests, so their attempt-0 signing rooms differ. -/
theorem c8_witness :
    sha256 [] ≠ sha256 [0] ∧
    signAttemptRoom [] 0 ≠ signAttemptRoom [0] 0 := by
  have hne : sha256 [] ≠ sha256 [0] := by decide
  exact ⟨hne, c8_room_discriminators.2.2 [] [0] 0 hne⟩

end Boomersig
